import Mathlib

/-!
Shallow embedding of the `washitech/lisk` validator engine
(`src/helpers/errors/index.js`: the `LiskError` class hierarchy and the
`Validator` rule engine) and of `BlocksRepository.save`
(`src/db/repos/blocks.js`), together with theorems settling the spec claims.

JavaScript numbers are modelled as `Int` (every input exercised here is a
small integer; `NaN` is a separate constructor).  `typeof`, truthiness,
strict equality and the abstract relational comparison (`<`, `>`, `<=`,
`>=`) are embedded for the value shapes the code manipulates.
-/

set_option autoImplicit false

namespace Lisk

/-- JavaScript values: `undefined`, `null`, booleans, (integer) numbers,
`NaN`, strings, and byte buffers (`Buffer` objects). -/
inductive JSVal where
  | undef
  | null
  | bool (b : Bool)
  | num (n : Int)
  | nan
  | str (s : String)
  | buf (bs : List Nat)
deriving DecidableEq, Repr, Inhabited

/-- `typeof v` for the embedded values (`typeof null` is `"object"`;
buffers are objects). -/
def jsTypeof : JSVal → String
  | .undef => "undefined"
  | .null => "object"
  | .bool _ => "boolean"
  | .num _ => "number"
  | .nan => "number"
  | .str _ => "string"
  | .buf _ => "object"

/-- JavaScript truthiness: `undefined`, `null`, `false`, `0`, `NaN` and the
empty string are falsy; every other embedded value is truthy. -/
def truthy : JSVal → Bool
  | .undef => false
  | .null => false
  | .bool b => b
  | .num n => n != 0
  | .nan => false
  | .str s => s != ""
  | .buf _ => true

/-- `a || b` (returns the first operand when truthy, otherwise the second). -/
def jsOr (a b : JSVal) : JSVal :=
  if truthy a then a else b

/-- Value of a decimal digit character, `none` for a non-digit. -/
def decDigitVal (c : Char) : Option Nat :=
  if c.isDigit then some (c.toNat - 48) else none

/-- Reads a non-empty all-digit character list as a natural number. -/
def decDigitsVal (cs : List Char) : Option Nat :=
  match cs with
  | [] => none
  | _ =>
    cs.foldl
      (fun acc c =>
        match acc, decDigitVal c with
        | some a, some d => some (10 * a + d)
        | _, _ => none)
      (some 0)

/-- ASCII whitespace, for the leading/trailing trim `ToNumber` performs. -/
def isSpaceChar (c : Char) : Bool :=
  c == ' ' || c == '\t' || c == '\n' || c == '\r'

/-- Strips leading and trailing whitespace from a character list. -/
def trimChars (cs : List Char) : List Char :=
  ((cs.dropWhile isSpaceChar).reverse.dropWhile isSpaceChar).reverse

/-- `ToNumber` on strings, restricted to optionally signed decimal
integers (the only numeric strings these claims exercise): the trimmed
empty string is `0`, a non-numeric string is `NaN` (`none`). -/
def strToNumber (s : String) : Option Int :=
  match trimChars s.toList with
  | [] => some 0
  | '-' :: rest => (decDigitsVal rest).map (fun n => -(n : Int))
  | '+' :: rest => (decDigitsVal rest).map (fun n => (n : Int))
  | cs => (decDigitsVal cs).map (fun n => (n : Int))

/-- `ToNumber`: `none` stands for `NaN`.  Buffers (objects) are mapped to
`NaN`; no default rule ever compares a buffer. -/
def jsToNumber : JSVal → Option Int
  | .undef => none
  | .null => some 0
  | .bool b => some (if b then 1 else 0)
  | .num n => some n
  | .nan => none
  | .str s => strToNumber s
  | .buf _ => none

/-- Strict equality `===`.  `NaN === NaN` is false; buffers are compared
structurally (the engine never compares buffer values). -/
def jsStrictEq : JSVal → JSVal → Bool
  | .undef, .undef => true
  | .null, .null => true
  | .bool a, .bool b => a == b
  | .num a, .num b => a == b
  | .str a, .str b => a == b
  | .buf a, .buf b => a == b
  | _, _ => false

/-- ECMAScript abstract relational comparison `a < b`: lexicographic when
both operands are strings, otherwise numeric after `ToNumber`; `none`
stands for the *undefined* result (a `NaN` operand). -/
def jsRelCmp (a b : JSVal) : Option Bool :=
  match a, b with
  | .str s₁, .str s₂ => some (decide (s₁ < s₂))
  | _, _ =>
    match jsToNumber a, jsToNumber b with
    | some x, some y => some (decide (x < y))
    | _, _ => none

/-- `a < b` (undefined comparison yields `false`). -/
def jsLT (a b : JSVal) : Bool := (jsRelCmp a b).getD false

/-- `a > b` (undefined comparison yields `false`). -/
def jsGT (a b : JSVal) : Bool := (jsRelCmp b a).getD false

/-- `a <= b` (negated `b < a`, except an undefined comparison yields `false`). -/
def jsLE (a b : JSVal) : Bool :=
  match jsRelCmp b a with
  | some r => !r
  | none => false

/-- `a >= b` (negated `a < b`, except an undefined comparison yields `false`). -/
def jsGE (a b : JSVal) : Bool :=
  match jsRelCmp a b with
  | some r => !r
  | none => false

/-- The error classes of `src/helpers/errors/index.js` plus the built-in
`Error` and `TypeError`. -/
inductive ErrClass where
  | error
  | typeError
  | liskError
  | httpServerError
  | invalidArgumentError
  | paramValidationError
  | sqlError
deriving DecidableEq, Repr

/-- The `extends` relation of the class hierarchy: `LiskError extends
Error`; `HTTPServerError`, `InvalidArgumentError`, `ParamValidationError`
and `SQLError` all extend `LiskError`; `TypeError` is a built-in subclass
of `Error`. -/
def ErrClass.parent : ErrClass → Option ErrClass
  | .error => none
  | .typeError => some .error
  | .liskError => some .error
  | .httpServerError => some .liskError
  | .invalidArgumentError => some .liskError
  | .paramValidationError => some .liskError
  | .sqlError => some .liskError

/-- Walks the parent chain (the chain has depth at most 2, so fuel 4 is
exact). -/
def instanceOfAux : Nat → ErrClass → ErrClass → Bool
  | 0, _, _ => false
  | n + 1, c, t =>
    c == t ||
      (match ErrClass.parent c with
       | some p => instanceOfAux n p t
       | none => false)

/-- `e instanceof T` for an error of class `c` and constructor `t`. -/
def ErrClass.instanceOf (c t : ErrClass) : Bool := instanceOfAux 4 c t

/-- A thrown JavaScript error: its class and its message. -/
structure JSError where
  cls : ErrClass
  message : String
deriving DecidableEq, Repr

/-- A rule descriptor object: optional `description`, optional `aliases`
list, and optional `validate(accept, value)` / `filter(accept, value)`
functions (JavaScript functions become Lean functions on `JSVal`). -/
structure RuleDescriptor where
  description : Option String := none
  aliases : Option (List String) := none
  validate : Option (JSVal → JSVal → JSVal) := none
  filter : Option (JSVal → JSVal → JSVal) := none

/-- A property of the `rules` object: either a plain data property holding
a descriptor (created by the assignment in `addRule`) or an accessor
created by `addAlias`, whose getter returns `this[origin]`. -/
inductive RuleEntry where
  | direct (d : RuleDescriptor)
  | aliasOf (origin : String)

/-- A JavaScript object's own properties, as an association list with
unique keys (first match wins on lookup; assignment replaces in place). -/
abbrev Registry := List (String × RuleEntry)

/-- Own-property lookup. -/
def lookupEntry (reg : Registry) (n : String) : Option RuleEntry :=
  (reg.find? (fun p => p.1 = n)).map Prod.snd

/-- Property write: replaces the first entry with the key in place,
otherwise appends. -/
def insertEntry : Registry → String → RuleEntry → Registry
  | [], n, e => [(n, e)]
  | p :: rest, n, e =>
    if p.1 = n then (n, e) :: rest else p :: insertEntry rest n e

/-- A non-object JavaScript primitive (the values whose `typeof` is not
`"object"`). -/
inductive JSPrim where
  | undefP
  | boolP (b : Bool)
  | numP (n : Int)
  | nanP
  | strP (s : String)
deriving DecidableEq, Repr

/-- `typeof` on non-object primitives. -/
def JSPrim.typeofPrim : JSPrim → String
  | .undefP => "undefined"
  | .boolP _ => "boolean"
  | .numP _ => "number"
  | .nanP => "number"
  | .strP _ => "string"

/-- The argument passed as `descriptor` to `addRule`: a non-object
primitive, `null`, or an actual descriptor object. -/
inductive DescArg where
  | prim (p : JSPrim)
  | nullArg
  | obj (d : RuleDescriptor)

/-- `typeof descriptor` for an `addRule` argument (`typeof null` is
`"object"`). -/
def DescArg.typeofArg : DescArg → String
  | .prim p => p.typeofPrim
  | .nullArg => "object"
  | .obj _ => "object"

/-- `this.prototype.rules[name] = descriptor` under `'use strict'`: if the
property is an accessor (an alias, which has no setter) the assignment
throws a `TypeError`; otherwise the data property is created or replaced. -/
def regAssign (reg : Registry) (n : String) (d : RuleDescriptor) :
    Except JSError Registry :=
  match lookupEntry reg n with
  | some (.aliasOf _) =>
    .error ⟨.typeError, "Cannot set property " ++ n ++ " which has only a getter"⟩
  | _ => .ok (insertEntry reg n (.direct d))

/-- `Validator.addAlias(name, origin)`: `Object.defineProperty(rules, name,
{get() { return this[origin]; }})`.  Redefining an existing alias property
(non-configurable, created by a previous `defineProperty`) throws a
`TypeError`; an existing data property (configurable) is replaced. -/
def addAlias (reg : Registry) (n origin : String) : Except JSError Registry :=
  match lookupEntry reg n with
  | some (.aliasOf _) =>
    .error ⟨.typeError, "Cannot redefine property: " ++ n⟩
  | _ => .ok (insertEntry reg n (.aliasOf origin))

/-- `Validator.addRule(name, descriptor)`: throws a plain `Error` when
`typeof descriptor !== 'object'`; then assigns the descriptor into the
prototype rules object; then, for `descriptor.hasOwnProperty('aliases')`,
registers each alias.  A `null` descriptor passes the `typeof` guard (its
`typeof` is `"object"`) and the subsequent `hasOwnProperty` read on `null`
throws a `TypeError`. -/
def addRule (reg : Registry) (n : String) (descriptor : DescArg) :
    Except JSError Registry :=
  if descriptor.typeofArg ≠ "object" then
    .error ⟨.error, "Rule descriptor should be an object"⟩
  else
    match descriptor with
    | .prim _ =>
      -- unreachable: every non-object primitive fails the typeof guard
      .error ⟨.error, "Rule descriptor should be an object"⟩
    | .nullArg =>
      .error ⟨.typeError, "Cannot read properties of null (reading hasOwnProperty)"⟩
    | .obj d => do
      let reg₁ ← regAssign reg n d
      match d.aliases with
      | some as => as.foldlM (fun r a => addAlias r a n) reg₁
      | none => .ok reg₁

/-- `defaults` rule filter: `if (typeof value === 'undefined') return
accept; return value;`. -/
def defaultsFilter (accept value : JSVal) : JSVal :=
  if jsTypeof value = "undefined" then accept else value

/-- The `defaults` descriptor. -/
def defaultsDescriptor : RuleDescriptor :=
  { description := some "Set default value if passed value is undefined"
    filter := some defaultsFilter }

/-- The `type` descriptor: its predicate is literally
`typeof (value === accept)`, i.e. the string `"boolean"`. -/
def typeDescriptor : RuleDescriptor :=
  { description := some "Check value type"
    validate := some (fun accept value =>
      .str (jsTypeof (.bool (jsStrictEq value accept)))) }

/-- The `equal` descriptor: `value === accept`. -/
def equalDescriptor : RuleDescriptor :=
  { description := some "Check if value equals acceptable value"
    validate := some (fun accept value => .bool (jsStrictEq value accept)) }

/-- The `notEqual` descriptor: literally `typeof (value !== accept)`. -/
def notEqualDescriptor : RuleDescriptor :=
  { description := some "Check if value not equals acceptable value"
    validate := some (fun accept value =>
      .str (jsTypeof (.bool (!jsStrictEq value accept)))) }

/-- The `greater` descriptor: its predicate is literally
`typeof value > accept` — `(typeof value) > accept`, comparing the type
string against the accepted value. -/
def greaterDescriptor : RuleDescriptor :=
  { description := some "Check if value is greater then acceptable value"
    aliases := some [">", "gt"]
    validate := some (fun accept value => .bool (jsGT (.str (jsTypeof value)) accept)) }

/-- The `greaterOrEqual` descriptor: literally `typeof value >= accept`. -/
def greaterOrEqualDescriptor : RuleDescriptor :=
  { description := some "Check if value is greater then or equal acceptable value"
    aliases := some [">=", "gte"]
    validate := some (fun accept value => .bool (jsGE (.str (jsTypeof value)) accept)) }

/-- The `less` descriptor: literally `typeof value < accept`. -/
def lessDescriptor : RuleDescriptor :=
  { description := some "Check if value is less then acceptable value"
    aliases := some ["<", "lt"]
    validate := some (fun accept value => .bool (jsLT (.str (jsTypeof value)) accept)) }

/-- The `lessOrEqual` descriptor: literally `typeof value <= accept`. -/
def lessOrEqualDescriptor : RuleDescriptor :=
  { description := some "Check if value is less then or equal acceptable value"
    aliases := some ["<=", "lte"]
    validate := some (fun accept value => .bool (jsLE (.str (jsTypeof value)) accept)) }

/-- The eight `Validator.addRule` calls at the bottom of the module, run in
order against the initially empty prototype rules object. -/
def defaultRulesE : Except JSError Registry := do
  let r ← addRule [] "defaults" (.obj defaultsDescriptor)
  let r ← addRule r "type" (.obj typeDescriptor)
  let r ← addRule r "equal" (.obj equalDescriptor)
  let r ← addRule r "notEqual" (.obj notEqualDescriptor)
  let r ← addRule r "greater" (.obj greaterDescriptor)
  let r ← addRule r "greaterOrEqual" (.obj greaterOrEqualDescriptor)
  let r ← addRule r "less" (.obj lessDescriptor)
  addRule r "lessOrEqual" (.obj lessOrEqualDescriptor)

/-- The prototype-level rule registry after module initialisation. -/
def defaultRules : Registry := defaultRulesE.toOption.getD []

/-- The instance `rules` object built by the constructor:
`extend(Object.create(this.rules), options.rules)` — own properties copied
from `options.rules`, with the prototype registry behind them on the
chain. -/
structure InstRules where
  own : Registry
  proto : Registry

/-- Property lookup through the prototype chain (`name in this.rules`,
and the first step of `this.rules[name]`): own properties shadow the
prototype's. -/
def lookupChain (r : InstRules) (n : String) : Option RuleEntry :=
  (lookupEntry r.own n).orElse (fun _ => lookupEntry r.proto n)

/-- Property *read* through the chain: an alias getter returns
`this[origin]`, itself a read on the same receiver, so resolution chases
alias entries.  The fuel bounds the chase; `own.length + proto.length + 1`
steps are enough for any chain without a cycle (a cyclic alias chain,
which would overflow the stack in JavaScript, resolves to `none`). -/
def resolveFuel : Nat → InstRules → String → Option RuleDescriptor
  | 0, _, _ => none
  | k + 1, r, n =>
    match lookupChain r n with
    | some (.direct d) => some d
    | some (.aliasOf o) => resolveFuel k r o
    | none => none

/-- `this.rules[name]`: the resolved descriptor (`none` stands for
`undefined`). -/
def getRuleD (r : InstRules) (n : String) : Option RuleDescriptor :=
  resolveFuel (r.own.length + r.proto.length + 1) r n

/-- A validator instance: the option fields and the instance rules
object.  The reporter is `null` in every configuration exercised here. -/
structure Validator where
  forceAsync : Bool
  skipMissed : Bool
  execRules : Bool
  rules : InstRules

/-- `Validator.prototype.forceAsync`. -/
def protoForceAsync : Bool := false

/-- `Validator.prototype.skipMissed`. -/
def protoSkipMissed : Bool := false

/-- `Validator.prototype.execRules`. -/
def protoExecRules : Bool := true

/-- Constructor options (`{forceAsync, skipMissed, execRules, rules}`);
`rules` carries plain descriptor objects. -/
structure VOptions where
  forceAsync : Bool := false
  skipMissed : Bool := false
  execRules : Bool := false
  rules : List (String × RuleDescriptor) := []

/-- `new Validator(options)` against the current prototype registry:
each flag is `this.<flag> || options.<flag>` (the prototype defaults), and
`this.rules = extend(Object.create(this.rules), options.rules)`.
`utils.extend` is modelled from the spec (`utils.js` is not in the
sources): it copies each own property of `options.rules` onto the target
by assignment. -/
def mkValidator (proto : Registry) (o : VOptions) : Validator :=
  { forceAsync := protoForceAsync || o.forceAsync
    skipMissed := protoSkipMissed || o.skipMissed
    execRules := protoExecRules || o.execRules
    rules :=
      { own := o.rules.map (fun p => (p.1, RuleEntry.direct p.2))
        proto := proto } }

/-- `Validator.prototype.hasRule`: `name in this.rules`. -/
def Validator.hasRule (v : Validator) (n : String) : Bool :=
  (lookupChain v.rules n).isSome

/-- `Validator.prototype.getRule`: throws when the name is absent,
otherwise reads `this.rules[name]`. -/
def Validator.getRule (v : Validator) (n : String) :
    Except JSError (Option RuleDescriptor) :=
  if (lookupChain v.rules n).isSome = false then
    .error ⟨.error, "Rule \"" ++ n ++ "\" is not defined"⟩
  else
    .ok (getRuleD v.rules n)

/-- One issue record accumulated by a field: the failing rule's name, its
accepted parameter, and the value at the time of the check. -/
structure Issue where
  rule : String
  accept : JSVal
  value : JSVal
deriving DecidableEq, Repr

/-- Modelled from the spec: `Field.prototype.validate` (`field.js` is not
among the sources).  The field walks the ruleset entries in order: a name
absent from the registry is skipped under `skipMissed` and otherwise aborts
with an error; a `filter` rule replaces the current value by the filter's
result; a `validate` rule whose result is falsy appends an issue capturing
the rule name, accepted parameter and current value, and evaluation
continues with the remaining entries.  Rule parameters are literal values
(no rule parameter in these claims is a function, so the `execRules`
invocation branch is never taken).  Every default rule completes
synchronously, so the field calls `finish(err, issues, value)` exactly
once, synchronously.  `applyFilter` is the value update a `filter`-kind
rule performs (the identity for a rule without a filter). -/
def applyFilter (d : RuleDescriptor) (a value : JSVal) : JSVal :=
  match d.filter with
  | some f => f a value
  | none => value

/-- One ruleset entry, as processed by the field walk. -/
def ruleStep (r : InstRules) (skipMissed : Bool) (n : String) (a : JSVal)
    (issues : List Issue) (value : JSVal) :
    Except JSError (List Issue × JSVal) :=
  match getRuleD r n with
  | none =>
    if skipMissed then
      .ok (issues, value)
    else
      .error ⟨.error, "Rule \"" ++ n ++ "\" is not defined"⟩
  | some d =>
    match d.validate with
    | some f =>
      if truthy (f a (applyFilter d a value)) then
        .ok (issues, applyFilter d a value)
      else
        .ok (issues ++ [⟨n, a, applyFilter d a value⟩], applyFilter d a value)
    | none => .ok (issues, applyFilter d a value)

/-- The field's walk over the whole ruleset: each entry is processed by
`ruleStep`, and a raised error aborts the walk. -/
def fieldValidate (r : InstRules) (skipMissed : Bool) :
    List (String × JSVal) → List Issue → JSVal →
    Except JSError (List Issue × JSVal)
  | [], issues, value => .ok (issues, value)
  | (n, a) :: rest, issues, value =>
    match ruleStep r skipMissed n a issues value with
    | .error e => .error e
    | .ok p => fieldValidate r skipMissed rest p.1 p.2

/-- The report object built by `finish`. -/
structure Report where
  isValid : Bool
  isAsync : Bool
  issues : List Issue
  rules : List (String × JSVal)
  value : JSVal
deriving DecidableEq, Repr

instance : Inhabited Report :=
  ⟨{ isValid := true, isAsync := false, issues := [], rules := [], value := .undef }⟩

/-- The no-callback branch of `finish` (lines 247–255): with no callback,
an error is rethrown; otherwise, when the `async` flag is already true,
`Error('Async validation without callback')` is thrown; otherwise `finish`
just returns.  `forceAsync` is never consulted on this path. -/
def finishNoCallback (async : Bool) (err : Option JSError) : Option JSError :=
  match err with
  | some e => some e
  | none =>
    if async then some ⟨.error, "Async validation without callback"⟩ else none

/-- How `finish` delivers the callback (lines 257–265): in-line via
`callback.call` when `async || !callback || !self.forceAsync`, otherwise
deferred through `setTimeout(..., 1)`. -/
inductive Delivery where
  | inline
  | deferred
deriving DecidableEq, Repr

/-- The delivery decision of `finish`, literally the condition
`if (async || !callback || !self.forceAsync)`. -/
def finishDelivery (async callbackPresent forceAsync : Bool) : Delivery :=
  if async || !callbackPresent || !forceAsync then .inline else .deferred

/-- `validator.validate(value, rules)` with no callback.  The field
completes synchronously (every rule here is synchronous), so `finish` runs
with `async === false`: an evaluation error is thrown; otherwise the
report is assembled (no reporter is configured) and returned — the
`finished` flag is set, so the final `Validation not finished` guard does
not fire. -/
def Validator.validateNoCb (v : Validator) (value : JSVal)
    (rules : List (String × JSVal)) : Except JSError Report :=
  match fieldValidate v.rules v.skipMissed rules [] value with
  | .error e =>
    match finishNoCallback false (some e) with
    | some e' => .error e'
    | none => .ok default
  | .ok (issues, output) =>
    match finishNoCallback false none with
    | some e' => .error e'
    | none =>
      .ok
        { isValid := issues.isEmpty
          isAsync := false
          issues := issues
          rules := rules
          value := output }

/-- Outcome of `validator.validate(value, rules, callback)` with a
callback: what the callback receives and how it is delivered. -/
structure CbOutcome where
  err : Option JSError
  report : Option Report
  delivery : Delivery
deriving Repr

/-- `validator.validate(value, rules, callback)` with a callback.  The
field completes synchronously, so `finish` runs with `async === false` and
the delivery decision is `finishDelivery false true v.forceAsync`. -/
def Validator.validateWithCb (v : Validator) (value : JSVal)
    (rules : List (String × JSVal)) : CbOutcome :=
  match fieldValidate v.rules v.skipMissed rules [] value with
  | .error e =>
    { err := some e
      report := none
      delivery := finishDelivery false true v.forceAsync }
  | .ok (issues, output) =>
    { err := none
      report := some
        { isValid := issues.isEmpty
          isAsync := false
          issues := issues
          rules := rules
          value := output }
      delivery := finishDelivery false true v.forceAsync }

/-- `Validator.options`, the static defaults used by the static
`Validator.validate`. -/
def staticOptions : VOptions :=
  { forceAsync := false, skipMissed := false, execRules := true, rules := [] }

/-- Static `Validator.validate(value, rules)` (no custom rules, no
callback): builds a throwaway instance from `extend({}, Validator.options,
{rules: customRules})` against the default prototype registry and
delegates to the instance `validate`. -/
def validateStatic (value : JSVal) (rules : List (String × JSVal)) :
    Except JSError Report :=
  (mkValidator defaultRules staticOptions).validateNoCb value rules

/-- The prototype rules object viewed as an instance chain with no own
properties (how the static registry is read). -/
def protoView (reg : Registry) : InstRules := ⟨[], reg⟩

/-- Rule resolution (`rules[name]`, getters chased) directly against a
prototype-level registry. -/
def resolveReg (reg : Registry) (n : String) : Option RuleDescriptor :=
  getRuleD (protoView reg) n

/-- A registry mutation through the public static API: `addRule` or
`addAlias`. -/
inductive RegOp where
  | addRuleOp (n : String) (d : DescArg)
  | addAliasOp (n origin : String)

/-- Runs one static-API mutation. -/
def applyOp (reg : Registry) : RegOp → Except JSError Registry
  | .addRuleOp n d => addRule reg n d
  | .addAliasOp n o => addAlias reg n o

/-- Runs a sequence of static-API mutations (stopping at the first thrown
error, as the exception would propagate). -/
def applyOps (reg : Registry) : List RegOp → Except JSError Registry
  | [] => .ok reg
  | op :: rest => do applyOps (← applyOp reg op) rest

/-! ### `BlocksRepository.save` (`src/db/repos/blocks.js`) -/

/-- Value of a hexadecimal digit character, `none` for a non-hex digit. -/
def hexDigitVal (c : Char) : Option Nat :=
  if c.isDigit then some (c.toNat - 48)
  else if 'a' ≤ c ∧ c ≤ 'f' then some (c.toNat - 87)
  else if 'A' ≤ c ∧ c ≤ 'F' then some (c.toNat - 55)
  else none

/-- Hex decoding as `Buffer.from(s, 'hex')` performs it: bytes are read
two digits at a time and decoding stops at the first invalid or incomplete
pair. -/
def hexToBytes : List Char → List Nat
  | c₁ :: c₂ :: rest =>
    match hexDigitVal c₁, hexDigitVal c₂ with
    | some h, some l => (16 * h + l) :: hexToBytes rest
    | _, _ => []
  | _ => []

/-- `Buffer.from(v, 'hex')`: decodes a string, copies a buffer, and throws
a `TypeError` for the other embedded value shapes. -/
def bufferFromHex (v : JSVal) : Except JSError JSVal :=
  match v with
  | .str s => .ok (.buf (hexToBytes s.toList))
  | .buf bs => .ok (.buf bs)
  | _ =>
    .error ⟨.typeError, "first argument must be of type string or an instance of Buffer"⟩

/-- A block object: the fields `save` touches, plus the remaining own
properties (copied verbatim by `Object.assign`). -/
structure BlockObj where
  payloadHash : JSVal
  generatorPublicKey : JSVal
  blockSignature : JSVal
  reward : JSVal
  rest : List (String × JSVal)
deriving DecidableEq, Repr, Inhabited

/-- The mutable store during `save`: a heap of block objects addressed by
index, the reference held by the caller's `block` variable, and the
reference held by the local `saveBlock` once assigned.  Mutating through
one reference leaves objects at other addresses untouched, which is what
makes the no-mutation claim contentful. -/
structure SaveState where
  heap : List BlockObj
  blockRef : Nat
  saveBlockRef : Option Nat
deriving Repr

/-- Reads the object a reference points at. -/
def readRef (s : SaveState) (i : Nat) : BlockObj :=
  s.heap.getD i default

/-- Writes through `saveBlock`'s reference. -/
def writeSaveBlock (s : SaveState) (f : BlockObj → BlockObj) : SaveState :=
  match s.saveBlockRef with
  | some i => { s with heap := s.heap.set i (f (readRef s i)) }
  | none => s

/-- `BlocksRepository.save(block)` up to the `pgp.helpers.insert` call:
`saveBlock = Object.assign({}, block)` allocates a fresh shallow copy;
the three `Buffer.from(block.…, 'hex')` conversions and the
`block.reward || 0` defaulting are each *read* from `block` and *written*
to `saveBlock`.  The `try`/`catch` rethrows the same error, so on failure
the function returns the state reached so far together with the error. -/
def blocksSave (block : BlockObj) : SaveState × Except JSError Unit :=
  let s₀ : SaveState := { heap := [block], blockRef := 0, saveBlockRef := none }
  let b := readRef s₀ s₀.blockRef
  let s₁ : SaveState :=
    { heap := s₀.heap ++ [b], blockRef := s₀.blockRef
      saveBlockRef := some s₀.heap.length }
  match bufferFromHex (readRef s₁ s₁.blockRef).payloadHash with
  | .error e => (s₁, .error e)
  | .ok ph =>
    let s₂ := writeSaveBlock s₁ (fun c => { c with payloadHash := ph })
    match bufferFromHex (readRef s₂ s₂.blockRef).generatorPublicKey with
    | .error e => (s₂, .error e)
    | .ok gpk =>
      let s₃ := writeSaveBlock s₂ (fun c => { c with generatorPublicKey := gpk })
      match bufferFromHex (readRef s₃ s₃.blockRef).blockSignature with
      | .error e => (s₃, .error e)
      | .ok sig =>
        let s₄ := writeSaveBlock s₃ (fun c => { c with blockSignature := sig })
        let s₅ := writeSaveBlock s₄
          (fun c => { c with reward := jsOr (readRef s₄ s₄.blockRef).reward (.num 0) })
        (s₅, .ok ())

/-! ### Registry lemmas -/

theorem defaultRulesE_ok : defaultRulesE = .ok defaultRules := rfl

theorem lookupEntry_nil (m : String) : lookupEntry [] m = none := rfl

theorem lookupEntry_cons (p : String × RuleEntry) (reg : Registry) (m : String) :
    lookupEntry (p :: reg) m = if p.1 = m then some p.2 else lookupEntry reg m := by
  by_cases h : p.1 = m <;> simp [lookupEntry, List.find?_cons, h]

theorem lookupEntry_insertEntry (reg : Registry) (n m : String) (e : RuleEntry) :
    lookupEntry (insertEntry reg n e) m = if n = m then some e else lookupEntry reg m := by
  induction reg with
  | nil =>
    by_cases h : n = m <;> simp [insertEntry, lookupEntry_cons, lookupEntry_nil, h]
  | cons p rest ih =>
    by_cases hp : p.1 = n
    · by_cases hm : n = m <;>
        simp [insertEntry, hp, lookupEntry_cons, hm, hp ▸ hm]
    · by_cases hm : p.1 = m
      · have hnm : n ≠ m := fun h => hp (h ▸ hm)
        have hmn : ¬(m = n) := fun h => hnm h.symm
        simp [insertEntry, hp, lookupEntry_cons, hm, hnm, hmn]
      · simp [insertEntry, hp, lookupEntry_cons, hm, ih]

theorem lookupEntry_ne_nil {reg : Registry} {n : String} {e : RuleEntry}
    (h : lookupEntry reg n = some e) : 1 ≤ reg.length := by
  cases reg with
  | nil => simp [lookupEntry_nil] at h
  | cons p rest => simp

/-- Resolution of a name whose chain entry is a plain data property takes
one step, for any positive fuel. -/
theorem resolveFuel_direct {r : InstRules} {n : String} {d : RuleDescriptor}
    (h : lookupChain r n = some (.direct d)) (k : Nat) :
    resolveFuel (k + 1) r n = some d := by
  simp [resolveFuel, h]

/-- Resolution of an alias entry steps to its origin. -/
theorem resolveFuel_alias {r : InstRules} {n o : String}
    (h : lookupChain r n = some (.aliasOf o)) (k : Nat) :
    resolveFuel (k + 1) r n = resolveFuel k r o := by
  simp [resolveFuel, h]

theorem lookupChain_protoView (reg : Registry) (n : String) :
    lookupChain (protoView reg) n = lookupEntry reg n := by
  simp [lookupChain, protoView, lookupEntry_nil, Option.orElse]

/-- An alias whose origin currently holds a plain descriptor resolves, via
the getter, to exactly that descriptor — and so does the origin itself. -/
theorem resolveReg_alias {reg : Registry} {n origin : String} {d : RuleDescriptor}
    (hn : lookupEntry reg n = some (.aliasOf origin))
    (ho : lookupEntry reg origin = some (.direct d)) :
    resolveReg reg n = some d ∧ resolveReg reg origin = some d := by
  have hlen : 1 ≤ reg.length := lookupEntry_ne_nil hn
  have hn' : lookupChain (protoView reg) n = some (.aliasOf origin) := by
    rw [lookupChain_protoView]; exact hn
  have ho' : lookupChain (protoView reg) origin = some (.direct d) := by
    rw [lookupChain_protoView]; exact ho
  constructor
  · show resolveFuel ((protoView reg).own.length + (protoView reg).proto.length + 1)
      (protoView reg) n = some d
    have : (protoView reg).own.length + (protoView reg).proto.length = reg.length := by
      simp [protoView]
    rw [this, resolveFuel_alias hn']
    obtain ⟨k, hk⟩ : ∃ k, reg.length = k + 1 :=
      ⟨reg.length - 1, by omega⟩
    rw [hk]
    exact resolveFuel_direct ho' k
  · show resolveFuel ((protoView reg).own.length + (protoView reg).proto.length + 1)
      (protoView reg) origin = some d
    exact resolveFuel_direct ho' _

/-! ### Field evaluation lemmas -/

/-- Evaluating a concatenated ruleset runs the first part and continues
with the second from the reached state. -/
theorem fieldValidate_append (r : InstRules) (sm : Bool)
    (l₁ l₂ : List (String × JSVal)) (issues : List Issue) (value : JSVal) :
    fieldValidate r sm (l₁ ++ l₂) issues value
      = (fieldValidate r sm l₁ issues value).bind
          (fun p => fieldValidate r sm l₂ p.1 p.2) := by
  induction l₁ generalizing issues value with
  | nil => rfl
  | cons e rest ih =>
    obtain ⟨n, a⟩ := e
    simp only [List.cons_append, fieldValidate]
    cases hs : ruleStep r sm n a issues value with
    | error e => rfl
    | ok p => exact ih p.1 p.2

/-- A single rule step either raises or extends the issue list by at most
one record. -/
theorem ruleStep_issues {r : InstRules} {sm : Bool} {n : String} {a : JSVal}
    {issues is₁ : List Issue} {value v₁ : JSVal}
    (h : ruleStep r sm n a issues value = .ok (is₁, v₁)) :
    is₁ = issues ∨ ∃ i, is₁ = issues ++ [i] := by
  unfold ruleStep at h
  split at h
  · split at h
    · cases h
      exact Or.inl rfl
    · cases h
  · split at h
    · split at h
      · cases h
        exact Or.inl rfl
      · cases h
        exact Or.inr ⟨_, rfl⟩
    · cases h
      exact Or.inl rfl

/-- The issue accumulator only grows: a successful run's final issue list
extends the initial one. -/
theorem fieldValidate_issues_mono (r : InstRules) (sm : Bool) :
    ∀ (l : List (String × JSVal)) (issues is' : List Issue) (value out : JSVal),
      fieldValidate r sm l issues value = .ok (is', out) →
      ∃ tail, is' = issues ++ tail := by
  intro l
  induction l with
  | nil =>
    intro issues is' value out h
    simp [fieldValidate] at h
    exact ⟨[], by simp [h.1]⟩
  | cons e rest ih =>
    intro issues is' value out h
    obtain ⟨n, a⟩ := e
    simp only [fieldValidate] at h
    cases hs : ruleStep r sm n a issues value with
    | error e =>
      rw [hs] at h
      cases h
    | ok p =>
      rw [hs] at h
      obtain ⟨tail, htail⟩ := ih _ _ _ _ h
      rcases ruleStep_issues hs with h₁ | ⟨i, h₁⟩
      · exact ⟨tail, by rw [htail, h₁]⟩
      · exact ⟨i :: tail, by rw [htail, h₁]; simp⟩

/-! ### Alias preservation lemmas -/

/-- A successful `addAlias` call leaves every *other* property unchanged
and never overwrites an existing alias (redefining one throws). -/
theorem addAlias_ok {reg reg' : Registry} {a m : String}
    (h : addAlias reg a m = .ok reg') :
    reg' = insertEntry reg a (.aliasOf m)
    ∧ ∀ o, lookupEntry reg a ≠ some (.aliasOf o) := by
  unfold addAlias at h
  cases hl : lookupEntry reg a with
  | none =>
    rw [hl] at h
    exact ⟨by cases h; rfl, by simp [hl]⟩
  | some e =>
    cases e with
    | direct d =>
      rw [hl] at h
      exact ⟨by cases h; rfl, by simp [hl]⟩
    | aliasOf o =>
      rw [hl] at h
      cases h

/-- The alias-registration fold of `addRule` preserves existing alias
entries (a clash would have thrown instead). -/
theorem foldAliases_preserves (m : String) :
    ∀ (as : List String) (reg reg' : Registry) (n origin : String),
      lookupEntry reg n = some (.aliasOf origin) →
      as.foldlM (fun r a => addAlias r a m) reg = .ok reg' →
      lookupEntry reg' n = some (.aliasOf origin) := by
  intro as
  induction as with
  | nil =>
    intro reg reg' n origin h hf
    obtain rfl : reg = reg' := by
      simpa [List.foldlM, pure, Except.pure] using hf
    exact h
  | cons a rest ih =>
    intro reg reg' n origin h hf
    simp only [List.foldlM] at hf
    cases ha : addAlias reg a m with
    | error e =>
      rw [ha] at hf
      simp only [bind, Except.bind] at hf
      cases hf
    | ok reg₁ =>
      rw [ha] at hf
      simp only [bind, Except.bind] at hf
      obtain ⟨hins, hnoalias⟩ := addAlias_ok ha
      have han : a ≠ n := by
        intro hEq
        exact hnoalias origin (hEq ▸ h)
      have h₁ : lookupEntry reg₁ n = some (.aliasOf origin) := by
        rw [hins, lookupEntry_insertEntry, if_neg han]
        exact h
      exact ih _ _ _ _ h₁ hf

/-- A successful property assignment never targeted an alias (that would
have thrown), and rewrites exactly the assigned key. -/
theorem regAssign_ok {reg reg' : Registry} {n : String} {d : RuleDescriptor}
    (h : regAssign reg n d = .ok reg') :
    reg' = insertEntry reg n (.direct d)
    ∧ ∀ o, lookupEntry reg n ≠ some (.aliasOf o) := by
  unfold regAssign at h
  cases hl : lookupEntry reg n with
  | none =>
    rw [hl] at h
    exact ⟨by cases h; rfl, by simp [hl]⟩
  | some e =>
    cases e with
    | direct d₀ =>
      rw [hl] at h
      exact ⟨by cases h; rfl, by simp [hl]⟩
    | aliasOf o =>
      rw [hl] at h
      cases h

/-- The success shape of `addRule`: the descriptor was an object, the
assignment succeeded, and either there were no aliases or the alias fold
succeeded. -/
theorem addRule_ok {reg reg' : Registry} {n : String} {d : DescArg}
    (h : addRule reg n d = .ok reg') :
    ∃ dd reg₁, d = .obj dd ∧ regAssign reg n dd = .ok reg₁ ∧
      ((dd.aliases = none ∧ reg' = reg₁) ∨
        ∃ as, dd.aliases = some as ∧
          as.foldlM (fun r a => addAlias r a n) reg₁ = .ok reg') := by
  cases d with
  | prim p => cases p <;> simp [addRule, DescArg.typeofArg, JSPrim.typeofPrim] at h
  | nullArg => simp [addRule, DescArg.typeofArg] at h
  | obj dd =>
    rw [addRule, if_neg (by simp [DescArg.typeofArg])] at h
    simp only [bind, Except.bind] at h
    cases hassign : regAssign reg n dd with
    | error e =>
      rw [hassign] at h
      cases h
    | ok reg₁ =>
      rw [hassign] at h
      refine ⟨dd, reg₁, rfl, hassign, ?_⟩
      cases hal : dd.aliases with
      | none =>
        rw [hal] at h
        cases h
        exact Or.inl ⟨rfl, rfl⟩
      | some as =>
        rw [hal] at h
        exact Or.inr ⟨as, rfl, h⟩

/-- The alias-registration fold, on success, installs an alias entry for
every listed name and touches nothing else. -/
theorem foldAliases_spec (m : String) :
    ∀ (as : List String) (reg reg' : Registry),
      as.foldlM (fun r a => addAlias r a m) reg = .ok reg' →
      (∀ n, n ∉ as → lookupEntry reg' n = lookupEntry reg n)
      ∧ ∀ a ∈ as, lookupEntry reg' a = some (.aliasOf m) := by
  intro as
  induction as with
  | nil =>
    intro reg reg' hf
    obtain rfl : reg = reg' := by
      simpa [List.foldlM, pure, Except.pure] using hf
    exact ⟨fun n _ => rfl, fun a ha => absurd ha (List.not_mem_nil a)⟩
  | cons a rest ih =>
    intro reg reg' hf
    simp only [List.foldlM] at hf
    cases ha : addAlias reg a m with
    | error e =>
      rw [ha] at hf
      simp only [bind, Except.bind] at hf
      cases hf
    | ok reg₁ =>
      rw [ha] at hf
      simp only [bind, Except.bind] at hf
      obtain ⟨hins, -⟩ := addAlias_ok ha
      obtain ⟨hother, haliases⟩ := ih reg₁ reg' hf
      constructor
      · intro n hn
        have hna : n ≠ a := fun hEq => hn (hEq ▸ List.mem_cons_self a rest)
        have hnr : n ∉ rest := fun hmem => hn (List.mem_cons_of_mem a hmem)
        rw [hother n hnr, hins, lookupEntry_insertEntry,
          if_neg (fun hEq => hna hEq.symm)]
      · intro a' ha'
        rcases List.mem_cons.mp ha' with rfl | hmem
        · by_cases har : a' ∈ rest
          · exact haliases a' har
          · rw [hother a' har, hins, lookupEntry_insertEntry, if_pos rfl]
        · exact haliases a' hmem

/-- A successful static-API mutation preserves every existing alias
entry. -/
theorem applyOp_preserves_alias {reg reg' : Registry} {n origin : String} (op : RegOp)
    (h : lookupEntry reg n = some (.aliasOf origin))
    (hop : applyOp reg op = .ok reg') :
    lookupEntry reg' n = some (.aliasOf origin) := by
  cases op with
  | addAliasOp a o =>
    obtain ⟨hins, hnoalias⟩ := addAlias_ok hop
    have han : a ≠ n := fun hEq => hnoalias origin (hEq ▸ h)
    rw [hins, lookupEntry_insertEntry, if_neg han]
    exact h
  | addRuleOp a d =>
    obtain ⟨dd, reg₁, rfl, hassign, hrest⟩ := addRule_ok hop
    obtain ⟨hins, hnoalias⟩ := regAssign_ok hassign
    have han : a ≠ n := fun hEq => hnoalias origin (hEq ▸ h)
    have h₁ : lookupEntry reg₁ n = some (.aliasOf origin) := by
      rw [hins, lookupEntry_insertEntry, if_neg han]
      exact h
    rcases hrest with ⟨-, rfl⟩ | ⟨as, -, hfold⟩
    · exact h₁
    · exact foldAliases_preserves a as reg₁ reg' n origin h₁ hfold

/-- A successful sequence of static-API mutations preserves every existing
alias entry. -/
theorem applyOps_preserves_alias {n origin : String} :
    ∀ (ops : List RegOp) (reg reg' : Registry),
      lookupEntry reg n = some (.aliasOf origin) →
      applyOps reg ops = .ok reg' →
      lookupEntry reg' n = some (.aliasOf origin) := by
  intro ops
  induction ops with
  | nil =>
    intro reg reg' h hops
    simp [applyOps] at hops
    exact hops ▸ h
  | cons op rest ih =>
    intro reg reg' h hops
    simp only [applyOps, bind, Except.bind] at hops
    cases hop : applyOp reg op with
    | error e => rw [hop] at hops; cases hops
    | ok reg₁ =>
      rw [hop] at hops
      exact ih _ _ (applyOp_preserves_alias op h hop) hops

/-- Shape of a no-callback `validate` call whose field run succeeds. -/
theorem validateNoCb_ok (v : Validator) (value : JSVal)
    (rules : List (String × JSVal)) (issues : List Issue) (out : JSVal)
    (h : fieldValidate v.rules v.skipMissed rules [] value = .ok (issues, out)) :
    v.validateNoCb value rules
      = .ok { isValid := issues.isEmpty, isAsync := false, issues := issues,
              rules := rules, value := out } := by
  unfold Validator.validateNoCb
  rw [h]
  rfl

/-- Shape of a no-callback `validate` call whose field run raises: the
error is rethrown. -/
theorem validateNoCb_error (v : Validator) (value : JSVal)
    (rules : List (String × JSVal)) (e : JSError)
    (h : fieldValidate v.rules v.skipMissed rules [] value = .error e) :
    v.validateNoCb value rules = .error e := by
  unfold Validator.validateNoCb
  rw [h]
  rfl

/-! ### Claim theorems -/

/-- C1: evaluating the static entry point at the claimed inputs.  The
`greater` rule's predicate is `typeof value > accept`, which compares the
string `"number"` against `3` and is false for every numeric value, so
`Validator.validate(5, {greater: 3})` yields `isValid = false` with a
`greater` issue — contradicting the claim's first half — while
`Validator.validate(2, {greater: 3})` yields `isValid = false` with
exactly one `greater` issue as claimed. -/
theorem c1_static_validate_greater_eval :
    validateStatic (.num 5) [("greater", .num 3)]
      = .ok { isValid := false, isAsync := false,
              issues := [⟨"greater", .num 3, .num 5⟩],
              rules := [("greater", .num 3)], value := .num 5 }
    ∧ validateStatic (.num 2) [("greater", .num 3)]
      = .ok { isValid := false, isAsync := false,
              issues := [⟨"greater", .num 3, .num 2⟩],
              rules := [("greater", .num 3)], value := .num 2 } :=
  ⟨by rfl, by rfl⟩

/-- C2 counterexample: with a callback present and `forceAsync` set, a
*synchronously* completed evaluation (`async` still false) is delivered
`deferred`, and an *asynchronously* completed one (`async` true) is
delivered in-line — the exact opposite of the claim's reading of the
`async` flag. -/
theorem c2_delivery_counterexample :
    finishDelivery false true true = Delivery.deferred
    ∧ finishDelivery true true true = Delivery.inline :=
  ⟨rfl, rfl⟩

/-- C2 amended: with a callback present, `finish` invokes the callback
in-line exactly when the `async` flag is already true (evaluation
completed asynchronously) or `forceAsync` is not set; it defers through
the 1 ms timer exactly when evaluation completed synchronously and
`forceAsync` is set. -/
theorem c2_delivery_policy (async forceAsync : Bool) :
    (finishDelivery async true forceAsync = Delivery.inline
      ↔ (async = true ∨ forceAsync = false))
    ∧ (finishDelivery async true forceAsync = Delivery.deferred
      ↔ (async = false ∧ forceAsync = true)) := by
  cases async <;> cases forceAsync <;> decide

/-- C3 counterexample: a validator with `forceAsync: true`, no callback
and a synchronously-completing rule does *not* throw "Async validation
without callback" — the no-callback branch of `finish` never consults
`forceAsync`, and with `async` still false it simply returns the report. -/
theorem c3_forceAsync_no_callback_counterexample :
    (mkValidator defaultRules { forceAsync := true }).validateNoCb
        (.num 1) [("equal", .num 1)]
      = .ok { isValid := true, isAsync := false, issues := [],
              rules := [("equal", .num 1)], value := .num 1 } :=
  by rfl

/-- C3 amended: with no callback, `forceAsync` is never consulted: when
the field completes synchronously (every rule in this model is
synchronous) the call returns the report without throwing, whatever
`forceAsync` is; the "Async validation without callback" error arises in
the no-callback branch of `finish` exactly when the `async` flag is
true, i.e. when evaluation really completed asynchronously. -/
theorem c3_no_callback_sync (v : Validator) (value : JSVal)
    (rules : List (String × JSVal)) (issues : List Issue) (out : JSVal)
    (h : fieldValidate v.rules v.skipMissed rules [] value = .ok (issues, out)) :
    v.validateNoCb value rules
      = .ok { isValid := issues.isEmpty, isAsync := false, issues := issues,
              rules := rules, value := out }
    ∧ ∀ a : Bool,
        (finishNoCallback a none
            = some ⟨.error, "Async validation without callback"⟩
          ↔ a = true) := by
  constructor
  · exact validateNoCb_ok v value rules issues out h
  · intro a
    cases a <;> simp [finishNoCallback]


theorem c3_no_callback_sync_witness :
    (mkValidator defaultRules { forceAsync := true }).validateNoCb
        (.num 2) [("equal", .num 1)]
      = .ok { isValid := false, isAsync := false,
              issues := [⟨"equal", .num 1, .num 2⟩],
              rules := [("equal", .num 1)], value := .num 2 } :=
  (c3_no_callback_sync (mkValidator defaultRules { forceAsync := true })
    (.num 2) [("equal", .num 1)] [⟨"equal", .num 1, .num 2⟩] (.num 2) (by rfl)).1

/-- C7: the `defaults` rule is registered with `defaultsFilter` as its
filter; the filter returns the accepted parameter exactly when the current
value is `undefined` and returns every defined value unchanged — and a
field running the `defaults` rule ends with the corresponding value. -/
theorem c7_defaults_rule (X v : JSVal) :
    resolveReg defaultRules "defaults" = some defaultsDescriptor
    ∧ defaultsFilter X .undef = X
    ∧ fieldValidate (protoView defaultRules) false [("defaults", X)] [] .undef
        = .ok ([], X)
    ∧ (v ≠ .undef →
        defaultsFilter X v = v
        ∧ fieldValidate (protoView defaultRules) false [("defaults", X)] [] v
            = .ok ([], v)) := by
  refine ⟨rfl, rfl, rfl, fun hv => ?_⟩
  cases v with
  | undef => exact absurd rfl hv
  | null => exact ⟨rfl, rfl⟩
  | bool b => exact ⟨rfl, rfl⟩
  | num m => exact ⟨rfl, rfl⟩
  | nan => exact ⟨rfl, rfl⟩
  | str s => exact ⟨rfl, rfl⟩
  | buf bs => exact ⟨rfl, rfl⟩

theorem c7_defaults_rule_witness :
    defaultsFilter (.num 7) (.num 1) = .num 1
    ∧ fieldValidate (protoView defaultRules) false [("defaults", .num 7)] [] (.num 1)
        = .ok ([], .num 1) :=
  (c7_defaults_rule (.num 7) (.num 1)).2.2.2 (by decide)

/-- C9: `typeof null` is `"object"`, so `addRule(name, null)` passes the
non-object guard (it does not raise "Rule descriptor should be an
object"); it fails afterwards, when `hasOwnProperty` is read from the
`null` descriptor, with a `TypeError`. -/
theorem c9_null_descriptor (reg : Registry) (n : String) :
    jsTypeof .null = "object"
    ∧ addRule reg n .nullArg
        = .error ⟨.typeError, "Cannot read properties of null (reading hasOwnProperty)"⟩
    ∧ (JSError.mk .typeError "Cannot read properties of null (reading hasOwnProperty)"
        ≠ ⟨.error, "Rule descriptor should be an object"⟩) :=
  ⟨rfl, rfl, by decide⟩

/-- C4: when a ruleset entry's rule resolves to a descriptor with a
`validate` predicate and the predicate is falsy on the value the rule
sees, the field records an issue and continues with the remaining
entries (the failure is never raised as an error), and any report the
call produces has `isValid = false` and carries an issue with that rule's
name and parameter. -/
theorem c4_predicate_failure_is_issue (v : Validator)
    (pre post : List (String × JSVal)) (n : String) (a : JSVal)
    (d : RuleDescriptor) (f : JSVal → JSVal → JSVal)
    (v₀ v₁ : JSVal) (is₁ : List Issue)
    (hpre : fieldValidate v.rules v.skipMissed pre [] v₀ = .ok (is₁, v₁))
    (hd : getRuleD v.rules n = some d)
    (hval : d.validate = some f)
    (hfail : truthy (f a (applyFilter d a v₁)) = false) :
    fieldValidate v.rules v.skipMissed (pre ++ (n, a) :: post) [] v₀
      = fieldValidate v.rules v.skipMissed post
          (is₁ ++ [⟨n, a, applyFilter d a v₁⟩]) (applyFilter d a v₁)
    ∧ ∀ report, v.validateNoCb v₀ (pre ++ (n, a) :: post) = .ok report →
        report.isValid = false
        ∧ report.issues.any (fun i => i.rule == n && i.accept == a) = true := by
  have hstep : ruleStep v.rules v.skipMissed n a is₁ v₁
      = .ok (is₁ ++ [⟨n, a, applyFilter d a v₁⟩], applyFilter d a v₁) := by
    unfold ruleStep
    rw [hd]
    simp [hval, hfail]
  have hsplit : fieldValidate v.rules v.skipMissed (pre ++ (n, a) :: post) [] v₀
      = fieldValidate v.rules v.skipMissed post
          (is₁ ++ [⟨n, a, applyFilter d a v₁⟩]) (applyFilter d a v₁) := by
    rw [fieldValidate_append, hpre]
    show fieldValidate v.rules v.skipMissed ((n, a) :: post) is₁ v₁ = _
    simp only [fieldValidate]
    rw [hstep]
  refine ⟨hsplit, fun report hrep => ?_⟩
  cases hrest : fieldValidate v.rules v.skipMissed post
      (is₁ ++ [⟨n, a, applyFilter d a v₁⟩]) (applyFilter d a v₁) with
  | error e =>
    rw [validateNoCb_error v v₀ _ e (by rw [hsplit]; exact hrest)] at hrep
    cases hrep
  | ok p =>
    obtain ⟨is₂, out⟩ := p
    rw [validateNoCb_ok v v₀ _ is₂ out (by rw [hsplit]; exact hrest)] at hrep
    obtain ⟨tail, rfl⟩ := fieldValidate_issues_mono _ _ _ _ _ _ _ hrest
    injection hrep with hrep
    subst hrep
    constructor
    · simp [List.isEmpty_iff]
    · simp

theorem c4_predicate_failure_is_issue_witness :
    fieldValidate (mkValidator defaultRules {}).rules
        (mkValidator defaultRules {}).skipMissed ([("equal", JSVal.num 1)]) [] (.num 2)
      = fieldValidate (mkValidator defaultRules {}).rules
          (mkValidator defaultRules {}).skipMissed []
          [⟨"equal", JSVal.num 1, JSVal.num 2⟩] (.num 2)
    ∧ ({ isValid := false, isAsync := false,
          issues := [⟨"equal", JSVal.num 1, JSVal.num 2⟩],
          rules := [("equal", JSVal.num 1)], value := JSVal.num 2 } : Report).isValid
        = false
    ∧ List.any [(⟨"equal", JSVal.num 1, JSVal.num 2⟩ : Issue)]
        (fun i => i.rule == "equal" && i.accept == JSVal.num 1) = true := by
  have h := c4_predicate_failure_is_issue (mkValidator defaultRules {}) [] []
    "equal" (.num 1) equalDescriptor
    (fun accept value => JSVal.bool (jsStrictEq value accept))
    (.num 2) (.num 2) [] (by rfl) (by rfl) rfl rfl
  have h₂ := h.2
    { isValid := false, isAsync := false,
      issues := [⟨"equal", JSVal.num 1, JSVal.num 2⟩],
      rules := [("equal", JSVal.num 1)], value := JSVal.num 2 } (by rfl)
  exact ⟨h.1, h₂.1, h₂.2⟩

/-- C5 counterexample: `addRule` with a non-object descriptor (here the
number 5) throws a plain `Error` whose class is not in the
`InvalidArgumentError` hierarchy. -/
theorem c5_plain_error_counterexample :
    addRule defaultRules "custom" (.prim (.numP 5))
      = .error ⟨.error, "Rule descriptor should be an object"⟩
    ∧ ErrClass.instanceOf .error .invalidArgumentError = false :=
  ⟨rfl, rfl⟩

/-- C5 amended: for a non-object descriptor, `addRule` raises a plain
`Error` with message "Rule descriptor should be an object" (not an
`InvalidArgument`-class error); for an object descriptor it registers the
descriptor under the given name plus one forwarding alias entry per entry
of `descriptor.aliases`. -/
theorem c5_addRule_contract :
    (∀ (reg : Registry) (n : String) (p : JSPrim),
        addRule reg n (.prim p)
          = .error ⟨.error, "Rule descriptor should be an object"⟩)
    ∧ ErrClass.instanceOf .error .invalidArgumentError = false
    ∧ (∀ (reg reg' : Registry) (n : String) (d : RuleDescriptor),
        addRule reg n (.obj d) = .ok reg' →
        n ∉ d.aliases.getD [] →
        lookupEntry reg' n = some (.direct d)
        ∧ ∀ a ∈ d.aliases.getD [], lookupEntry reg' a = some (.aliasOf n)) := by
  refine ⟨?_, rfl, ?_⟩
  · intro reg n p
    cases p <;> rfl
  · intro reg reg' n d h hn
    obtain ⟨dd, reg₁, hobj, hassign, hrest⟩ := addRule_ok h
    injection hobj with hobj
    subst hobj
    obtain ⟨hins, -⟩ := regAssign_ok hassign
    have h₁ : lookupEntry reg₁ n = some (.direct d) := by
      rw [hins, lookupEntry_insertEntry, if_pos rfl]
    rcases hrest with ⟨hal, rfl⟩ | ⟨as, hal, hfold⟩
    · refine ⟨h₁, fun a ha => ?_⟩
      rw [hal] at ha
      cases ha
    · rw [hal] at hn ⊢
      obtain ⟨hother, haliases⟩ := foldAliases_spec n as reg₁ reg' hfold
      exact ⟨by rw [hother n hn]; exact h₁, haliases⟩

theorem c5_addRule_contract_witness :
    addRule [] "x" (.prim (.numP 5))
      = .error ⟨.error, "Rule descriptor should be an object"⟩
    ∧ lookupEntry (addRule [] "myGreater" (.obj greaterDescriptor)
        |>.toOption.getD []) "myGreater" = some (.direct greaterDescriptor)
    ∧ lookupEntry (addRule [] "myGreater" (.obj greaterDescriptor)
        |>.toOption.getD []) "gt" = some (.aliasOf "myGreater") := by
  have h := c5_addRule_contract.2.2 []
    (addRule [] "myGreater" (.obj greaterDescriptor) |>.toOption.getD [])
    "myGreater" greaterDescriptor (by rfl) (by decide)
  exact ⟨c5_addRule_contract.1 [] "x" (.numP 5), h.1, h.2 "gt" (by decide)⟩

/-- C6: once `addAlias(name, origin)` has installed an alias entry, any
successful sequence of further `addRule`/`addAlias` calls leaves the alias
entry intact, and whenever the origin currently holds a plain descriptor,
looking up the alias resolves to exactly that descriptor (the same value
the origin resolves to); in particular re-assigning the origin rule to a
new descriptor makes the alias resolve to the new descriptor. -/
theorem c6_alias_tracks_origin (reg reg' reg'' : Registry) (n origin : String)
    (ops : List RegOp) (d' : RuleDescriptor)
    (h₀ : lookupEntry reg n = some (.aliasOf origin))
    (h₁ : applyOps reg ops = .ok reg') :
    (∀ d, lookupEntry reg' origin = some (.direct d) →
        resolveReg reg' n = some d ∧ resolveReg reg' origin = some d)
    ∧ (regAssign reg' origin d' = .ok reg'' →
        resolveReg reg'' n = some d' ∧ resolveReg reg'' origin = some d') := by
  have halias : lookupEntry reg' n = some (.aliasOf origin) :=
    applyOps_preserves_alias ops reg reg' h₀ h₁
  constructor
  · intro d hdir
    exact resolveReg_alias halias hdir
  · intro hassign
    obtain ⟨hins, hnoalias⟩ := regAssign_ok hassign
    have hno : ¬(origin = n) := by
      intro hEq
      refine hnoalias origin ?_
      nth_rewrite 1 [hEq]
      exact halias
    have halias'' : lookupEntry reg'' n = some (.aliasOf origin) := by
      rw [hins, lookupEntry_insertEntry, if_neg hno]
      exact halias
    have hdir'' : lookupEntry reg'' origin = some (.direct d') := by
      rw [hins, lookupEntry_insertEntry, if_pos rfl]
    exact resolveReg_alias halias'' hdir''

theorem c6_alias_tracks_origin_witness :
    resolveReg defaultRules "gt" = some greaterDescriptor
    ∧ resolveReg (insertEntry defaultRules "greater" (.direct equalDescriptor)) "gt"
        = some equalDescriptor := by
  have before := (c6_alias_tracks_origin defaultRules defaultRules []
    "gt" "greater" [] equalDescriptor (by rfl) rfl).1 greaterDescriptor (by rfl)
  have after := (c6_alias_tracks_origin defaultRules
    (insertEntry defaultRules "greater" (.direct equalDescriptor)) []
    "gt" "greater" [.addRuleOp "greater" (.obj equalDescriptor)] equalDescriptor
    (by rfl) (by rfl)).1 equalDescriptor (by rfl)
  exact ⟨before.1, after.1⟩

/-- C8: the instance rules object built by the constructor resolves a name
to the `options.rules` entry when one exists and otherwise to the
prototype entry — so every prototype-level rule is still reachable
(nothing is removed), every name of `options.rules` is reachable, and the
instance entry shadows the prototype entry on collision. -/
theorem c8_constructor_merges_rules (proto : Registry) (o : VOptions) (n : String) :
    lookupChain (mkValidator proto o).rules n
      = ((lookupEntry (o.rules.map (fun p => (p.1, RuleEntry.direct p.2))) n).orElse
          (fun _ => lookupEntry proto n))
    ∧ ((lookupEntry proto n).isSome = true →
        (mkValidator proto o).hasRule n = true)
    ∧ (lookupEntry (o.rules.map (fun p => (p.1, RuleEntry.direct p.2))) n = none →
        lookupChain (mkValidator proto o).rules n = lookupEntry proto n)
    ∧ (∀ e, lookupEntry (o.rules.map (fun p => (p.1, RuleEntry.direct p.2))) n = some e →
        lookupChain (mkValidator proto o).rules n = some e) := by
  refine ⟨rfl, ?_, ?_, ?_⟩
  · intro hsome
    unfold Validator.hasRule
    cases ho : lookupEntry (o.rules.map (fun p => (p.1, RuleEntry.direct p.2))) n with
    | none =>
      show ((lookupEntry (o.rules.map (fun p => (p.1, RuleEntry.direct p.2))) n).orElse
        (fun _ => lookupEntry proto n)).isSome = true
      rw [ho]
      simpa [Option.orElse] using hsome
    | some e =>
      show ((lookupEntry (o.rules.map (fun p => (p.1, RuleEntry.direct p.2))) n).orElse
        (fun _ => lookupEntry proto n)).isSome = true
      rw [ho]
      simp [Option.orElse]
  · intro hnone
    show ((lookupEntry (o.rules.map (fun p => (p.1, RuleEntry.direct p.2))) n).orElse
      (fun _ => lookupEntry proto n)) = lookupEntry proto n
    rw [hnone]
    simp [Option.orElse]
  · intro e hsome
    show ((lookupEntry (o.rules.map (fun p => (p.1, RuleEntry.direct p.2))) n).orElse
      (fun _ => lookupEntry proto n)) = some e
    rw [hsome]
    simp [Option.orElse]

theorem c8_constructor_merges_rules_witness :
    (mkValidator defaultRules { rules := [("greater", equalDescriptor)] }).hasRule
        "type" = true
    ∧ lookupChain (mkValidator defaultRules
          { rules := [("greater", equalDescriptor)] }).rules "type"
        = lookupEntry defaultRules "type"
    ∧ lookupChain (mkValidator defaultRules
          { rules := [("greater", equalDescriptor)] }).rules "greater"
        = some (.direct equalDescriptor) := by
  refine ⟨(c8_constructor_merges_rules defaultRules _ "type").2.1 (by rfl),
    (c8_constructor_merges_rules defaultRules _ "type").2.2.1 (by rfl),
    (c8_constructor_merges_rules defaultRules _ "greater").2.2.2
      (.direct equalDescriptor) (by rfl)⟩

/-- C10: `BlocksRepository.save` only mutates the fresh `Object.assign`
copy: after the call (whether the hex conversions succeeded or threw), the
heap cell the caller's `block` reference points at still holds the
original object, every field unchanged. -/
theorem c10_save_does_not_mutate_block (block : BlockObj) :
    (blocksSave block).1.heap.get? (blocksSave block).1.blockRef = some block := by
  simp only [blocksSave]
  split
  · rfl
  · split
    · rfl
    · split
      · rfl
      · rfl

end Lisk
